import Mathlib

/- Verification of the Analyzer repository (src/Analyzer/analysismodule.py and
src/Analyzer/Analyzer.py).

Python/numpy floating-point values are modelled by the type FloatR below: an
exact real number, one of the two infinities, or NaN.  Arithmetic on FloatR
follows the IEEE-754 rules numpy implements (division of a positive finite
value by zero gives +inf, log10 of a negative number gives NaN, and so on),
with finite arithmetic idealised as exact real arithmetic and signed zero not
modelled (no code path of this repository distinguishes -0.0 from 0.0). -/

/-- Model of a numpy floating-point value: a finite real, one of the two
infinities, or NaN. -/
inductive FloatR where
  | fin (x : ℝ)
  | pinf
  | ninf
  | nan

/-- IEEE addition as numpy performs it: infinities absorb finite values,
opposite infinities give NaN, NaN absorbs everything. -/
def fadd : FloatR → FloatR → FloatR
  | .fin a, .fin b => .fin (a + b)
  | .fin _, .pinf => .pinf
  | .fin _, .ninf => .ninf
  | .pinf, .fin _ => .pinf
  | .pinf, .pinf => .pinf
  | .ninf, .fin _ => .ninf
  | .ninf, .ninf => .ninf
  | _, _ => .nan

/-- IEEE subtraction as numpy performs it. -/
def fsub : FloatR → FloatR → FloatR
  | .fin a, .fin b => .fin (a - b)
  | .fin _, .pinf => .ninf
  | .fin _, .ninf => .pinf
  | .pinf, .fin _ => .pinf
  | .pinf, .ninf => .pinf
  | .ninf, .fin _ => .ninf
  | .ninf, .pinf => .ninf
  | _, _ => .nan

/-- IEEE multiplication as numpy performs it: an infinity times zero is NaN,
an infinity times a nonzero finite value is an infinity of the product sign. -/
noncomputable def fmul : FloatR → FloatR → FloatR
  | .fin a, .fin b => .fin (a * b)
  | .fin a, .pinf => if 0 < a then .pinf else if a < 0 then .ninf else .nan
  | .fin a, .ninf => if 0 < a then .ninf else if a < 0 then .pinf else .nan
  | .pinf, .fin b => if 0 < b then .pinf else if b < 0 then .ninf else .nan
  | .ninf, .fin b => if 0 < b then .ninf else if b < 0 then .pinf else .nan
  | .pinf, .pinf => .pinf
  | .pinf, .ninf => .ninf
  | .ninf, .pinf => .ninf
  | .ninf, .ninf => .pinf
  | _, _ => .nan

/-- IEEE division as numpy performs it: a nonzero finite value divided by zero
is a signed infinity (numpy emits a warning but returns the infinity), zero
divided by zero is NaN, a finite value divided by an infinity is zero. -/
noncomputable def fdiv : FloatR → FloatR → FloatR
  | .fin a, .fin b =>
      if b = 0 then (if 0 < a then .pinf else if a < 0 then .ninf else .nan)
      else .fin (a / b)
  | .fin _, .pinf => .fin 0
  | .fin _, .ninf => .fin 0
  | .pinf, .fin b => if b < 0 then .ninf else .pinf
  | .ninf, .fin b => if b < 0 then .pinf else .ninf
  | _, _ => .nan

/-- IEEE square root as numpy performs it: NaN on negative input. -/
noncomputable def fsqrt : FloatR → FloatR
  | .fin a => if a < 0 then .nan else .fin (Real.sqrt a)
  | .pinf => .pinf
  | _ => .nan

/-- np.log10 on one value: -inf at zero, NaN on negative input. -/
noncomputable def flog10 : FloatR → FloatR
  | .fin a => if 0 < a then .fin (Real.logb 10 a) else if a = 0 then .ninf else .nan
  | .pinf => .pinf
  | _ => .nan

/-- np.sum over a vector: sequential IEEE addition starting from 0. -/
def fsum (l : List FloatR) : FloatR := l.foldl fadd (.fin 0)

/-- Model of scipy.optimize.lsq_linear applied, as in regress, to a single
column vector x (the source reshapes x with to_cvec) and right-hand side y
with the default unconstrained bounds.  The solver then returns the
unconstrained least-squares solution of min over a of the norm of a*x - y,
which for a nonzero column is sum(x*y)/sum(x*x) by the normal equation; the
minimisation theorem residSq_min below proves this characterisation.  The
model is used only where the column is nonzero. -/
noncomputable def lsq_linear (x : List FloatR) (y : List FloatR) : FloatR :=
  fdiv (fsum (List.zipWith fmul x y)) (fsum (x.map (fun t => fmul t t)))

/-- Embedding of regress from src/Analyzer/analysismodule.py (lines 68-99):
x = log10(nvec - 1), y = log10(yvec), slope from lsq_linear, then
dy = sum((y - a*x)**2) / (len(yvec) - 2), dx = 1 / sum(x**2),
delta = sqrt(dy * dx).  Squaring is modelled as self-multiplication, which
agrees with the float power operator on every FloatR value. -/
noncomputable def regress (nvec yvec : List ℝ) : FloatR × FloatR :=
  let x := nvec.map (fun n => flog10 (.fin (n - 1)))
  let y := yvec.map (fun r => flog10 (.fin r))
  let res := lsq_linear x y
  let dy := fdiv (fsum (List.zipWith (fun yi xi => fmul (fsub yi (fmul res xi)) (fsub yi (fmul res xi))) y x))
                 (.fin ((yvec.length : ℝ) - 2))
  let dx := fdiv (.fin 1) (fsum (x.map (fun t => fmul t t)))
  (res, fsqrt (fmul dy dx))

/- Real-valued abbreviations used to state the claims about regress. -/

/-- The log-abscissas x = log10(n - 1) of the regression. -/
noncomputable def xlog (nvec : List ℝ) : List ℝ := nvec.map (fun n => Real.logb 10 (n - 1))

/-- The log-ordinates y = log10(r) of the regression. -/
noncomputable def ylog (rvec : List ℝ) : List ℝ := rvec.map (fun r => Real.logb 10 r)

/-- Sum of squares of a real vector. -/
noncomputable def sumSq (l : List ℝ) : ℝ := (l.map (fun t => t * t)).sum

/-- Sum of elementwise products of two real vectors. -/
noncomputable def dotSum (xs ys : List ℝ) : ℝ := (List.zipWith (fun a b => a * b) xs ys).sum

/-- Sum of squared residuals of the through-the-origin fit y = a*x. -/
noncomputable def residSq (a : ℝ) (ys xs : List ℝ) : ℝ :=
  (List.zipWith (fun yi xi => (yi - a * xi) * (yi - a * xi)) ys xs).sum

lemma flog10_fin_of_pos {t : ℝ} (h : 0 < t) : flog10 (.fin t) = .fin (Real.logb 10 t) := by
  simp [flog10, h]

lemma foldl_fadd_fin (c : ℝ) (l : List ℝ) :
    (l.map FloatR.fin).foldl fadd (.fin c) = .fin (c + l.sum) := by
  induction l generalizing c with
  | nil => simp
  | cons a l ih => simp [fadd, ih, add_assoc]

lemma fsum_map_fin (l : List ℝ) : fsum (l.map FloatR.fin) = .fin l.sum := by
  simpa [fsum] using foldl_fadd_fin 0 l

lemma xmap_eq (nvec : List ℝ) :
    (∀ n ∈ nvec, 1 < n) →
    nvec.map (fun n => flog10 (.fin (n - 1))) = (xlog nvec).map FloatR.fin := by
  unfold xlog
  induction nvec with
  | nil => intro _; rfl
  | cons a l ih =>
      intro hn
      have ha : (0:ℝ) < a - 1 := by have := hn a (by simp); linarith
      simp only [List.map_cons]
      rw [flog10_fin_of_pos ha, ih (fun t ht => hn t (by simp [ht]))]

lemma ymap_eq (rvec : List ℝ) :
    (∀ r ∈ rvec, 0 < r) →
    rvec.map (fun r => flog10 (.fin r)) = (ylog rvec).map FloatR.fin := by
  unfold ylog
  induction rvec with
  | nil => intro _; rfl
  | cons a l ih =>
      intro hr
      simp only [List.map_cons]
      rw [flog10_fin_of_pos (hr a (by simp)), ih (fun t ht => hr t (by simp [ht]))]

lemma zipWith_fmul_fin (xs : List ℝ) :
    ∀ ys : List ℝ, List.zipWith fmul (xs.map FloatR.fin) (ys.map FloatR.fin)
      = (List.zipWith (fun a b => a * b) xs ys).map FloatR.fin := by
  induction xs with
  | nil => intro ys; simp
  | cons a xs ih =>
      intro ys
      cases ys with
      | nil => simp
      | cons b ys => simp [fmul, ih]

lemma map_fmul_self_fin (xs : List ℝ) :
    (xs.map FloatR.fin).map (fun t => fmul t t) = (xs.map (fun t => t * t)).map FloatR.fin := by
  induction xs with
  | nil => rfl
  | cons a xs ih => simp [fmul, ih]

lemma zipWith_resid_fin (A : ℝ) (ys : List ℝ) :
    ∀ xs : List ℝ,
    List.zipWith (fun yi xi => fmul (fsub yi (fmul (FloatR.fin A) xi)) (fsub yi (fmul (FloatR.fin A) xi)))
        (ys.map FloatR.fin) (xs.map FloatR.fin)
      = (List.zipWith (fun yi xi => (yi - A * xi) * (yi - A * xi)) ys xs).map FloatR.fin := by
  induction ys with
  | nil => intro xs; simp
  | cons b ys ih =>
      intro xs
      cases xs with
      | nil => simp
      | cons a xs => simp [fmul, fsub, ih, List.map_zipWith]

/-- Evaluation of regress on inputs where both logarithms are defined and the
column of abscissas is nonzero: the slope is the normal-equation quotient and
only the final degrees-of-freedom division and square root remain symbolic. -/
lemma regress_eq_of_pos (nvec yvec : List ℝ)
    (hn : ∀ n ∈ nvec, 1 < n) (hr : ∀ r ∈ yvec, 0 < r)
    (hx : sumSq (xlog nvec) ≠ 0) :
    regress nvec yvec =
      (.fin (dotSum (xlog nvec) (ylog yvec) / sumSq (xlog nvec)),
       fsqrt (fmul
         (fdiv (.fin (residSq (dotSum (xlog nvec) (ylog yvec) / sumSq (xlog nvec)) (ylog yvec) (xlog nvec)))
               (.fin ((yvec.length : ℝ) - 2)))
         (.fin (1 / sumSq (xlog nvec))))) := by
  have hxm := xmap_eq nvec hn
  have hym := ymap_eq yvec hr
  have hsq : fsum ((nvec.map (fun n => flog10 (.fin (n - 1)))).map (fun t => fmul t t))
      = .fin (sumSq (xlog nvec)) := by
    rw [hxm, map_fmul_self_fin, fsum_map_fin]; rfl
  have hdot : fsum (List.zipWith fmul (nvec.map (fun n => flog10 (.fin (n - 1))))
      (yvec.map (fun r => flog10 (.fin r)))) = .fin (dotSum (xlog nvec) (ylog yvec)) := by
    rw [hxm, hym, zipWith_fmul_fin, fsum_map_fin]; rfl
  have ha : lsq_linear (nvec.map (fun n => flog10 (.fin (n - 1)))) (yvec.map (fun r => flog10 (.fin r)))
      = .fin (dotSum (xlog nvec) (ylog yvec) / sumSq (xlog nvec)) := by
    rw [lsq_linear, hdot, hsq, fdiv, if_neg hx]
  have hres : fsum (List.zipWith
      (fun yi xi => fmul (fsub yi (fmul (FloatR.fin (dotSum (xlog nvec) (ylog yvec) / sumSq (xlog nvec))) xi))
                         (fsub yi (fmul (FloatR.fin (dotSum (xlog nvec) (ylog yvec) / sumSq (xlog nvec))) xi)))
      (yvec.map (fun r => flog10 (.fin r))) (nvec.map (fun n => flog10 (.fin (n - 1)))))
      = .fin (residSq (dotSum (xlog nvec) (ylog yvec) / sumSq (xlog nvec)) (ylog yvec) (xlog nvec)) := by
    rw [hxm, hym, zipWith_resid_fin, fsum_map_fin]; rfl
  have hdx : fdiv (.fin 1) (fsum ((nvec.map (fun n => flog10 (.fin (n - 1)))).map (fun t => fmul t t)))
      = .fin (1 / sumSq (xlog nvec)) := by
    rw [hsq, fdiv, if_neg hx]
  show (lsq_linear _ _, _) = _
  rw [ha, hres] at *
  simp only [regress, ha, hres, hdx]

lemma sumSq_nil : sumSq ([] : List ℝ) = 0 := rfl

lemma sumSq_cons (a : ℝ) (l : List ℝ) : sumSq (a :: l) = a * a + sumSq l := rfl

lemma dotSum_cons (a b : ℝ) (xs ys : List ℝ) :
    dotSum (a :: xs) (b :: ys) = a * b + dotSum xs ys := rfl

lemma residSq_cons (c y x : ℝ) (ys xs : List ℝ) :
    residSq c (y :: ys) (x :: xs) = (y - c * x) * (y - c * x) + residSq c ys xs := rfl

lemma sumSq_nonneg (l : List ℝ) : 0 ≤ sumSq l := by
  induction l with
  | nil => simp [sumSq_nil]
  | cons a l ih => rw [sumSq_cons]; nlinarith [mul_self_nonneg a]

lemma residSq_nonneg (c : ℝ) (ys : List ℝ) : ∀ xs : List ℝ, 0 ≤ residSq c ys xs := by
  induction ys with
  | nil => intro xs; cases xs <;> simp [residSq]
  | cons y ys ih =>
      intro xs
      cases xs with
      | nil => simp [residSq]
      | cons x xs =>
          rw [residSq_cons]
          nlinarith [mul_self_nonneg (y - c * x), ih xs]

lemma residSq_expand (b : ℝ) (ys : List ℝ) :
    ∀ xs : List ℝ, ys.length = xs.length →
    residSq b ys xs = sumSq ys - 2 * b * dotSum xs ys + b * b * sumSq xs := by
  induction ys with
  | nil =>
      intro xs h
      have : xs = [] := by cases xs <;> simp_all
      subst this
      simp [residSq, sumSq_nil, dotSum]
  | cons y ys ih =>
      intro xs h
      cases xs with
      | nil => simp at h
      | cons x xs =>
          have h' : ys.length = xs.length := by simpa using h
          rw [residSq_cons, sumSq_cons, sumSq_cons, dotSum_cons, ih xs h']
          ring

/-- The normal-equation quotient minimises the sum of squared residuals of the
through-the-origin fit: it is the least-squares solution. -/
lemma residSq_min (ys xs : List ℝ) (h : ys.length = xs.length) (hx : 0 < sumSq xs) (b : ℝ) :
    residSq (dotSum xs ys / sumSq xs) ys xs ≤ residSq b ys xs := by
  have e1 := residSq_expand (dotSum xs ys / sumSq xs) ys xs h
  have e2 := residSq_expand b ys xs h
  have key : residSq b ys xs - residSq (dotSum xs ys / sumSq xs) ys xs
      = sumSq xs * ((b - dotSum xs ys / sumSq xs) * (b - dotSum xs ys / sumSq xs)) := by
    rw [e1, e2]
    field_simp
    ring
  nlinarith [mul_nonneg hx.le (mul_self_nonneg (b - dotSum xs ys / sumSq xs))]

lemma log10_pos : (0:ℝ) < Real.log 10 := Real.log_pos (by norm_num)

lemma logb10_pow10 (k : ℕ) : Real.logb 10 ((10:ℝ) ^ k) = k := by
  rw [Real.logb, Real.log_pow]
  field_simp

lemma logb10_10 : Real.logb 10 (10:ℝ) = 1 := by
  rw [Real.logb]
  exact div_self (ne_of_gt log10_pos)

lemma logb10_100 : Real.logb 10 (100:ℝ) = 2 := by
  rw [show (100:ℝ) = (10:ℝ) ^ (2:ℕ) by norm_num, logb10_pow10]
  norm_num

lemma logb10_1000 : Real.logb 10 (1000:ℝ) = 3 := by
  rw [show (1000:ℝ) = (10:ℝ) ^ (3:ℕ) by norm_num, logb10_pow10]
  norm_num

lemma dotSum_nil (ys : List ℝ) : dotSum [] ys = 0 := rfl

lemma residSq_nil (c : ℝ) (xs : List ℝ) : residSq c [] xs = 0 := rfl

/-- On two log-valid points with a nonzero residual, the degrees-of-freedom
division in regress is a division by zero and delta comes out as +inf. -/
lemma regress_two_pinf (nvec yvec : List ℝ) (hy2 : yvec.length = 2)
    (hn : ∀ n ∈ nvec, 1 < n) (hr : ∀ r ∈ yvec, 0 < r)
    (hx : 0 < sumSq (xlog nvec))
    (hres : 0 < residSq (dotSum (xlog nvec) (ylog yvec) / sumSq (xlog nvec)) (ylog yvec) (xlog nvec)) :
    (regress nvec yvec).2 = FloatR.pinf := by
  have heq := regress_eq_of_pos nvec yvec hn hr (ne_of_gt hx)
  rw [heq]
  have h0 : ((yvec.length : ℝ) - 2) = 0 := by rw [hy2]; norm_num
  rw [h0]
  have hdy : fdiv (.fin (residSq (dotSum (xlog nvec) (ylog yvec) / sumSq (xlog nvec)) (ylog yvec) (xlog nvec)))
      (.fin (0:ℝ)) = FloatR.pinf := by
    simp [fdiv, hres]
  rw [hdy]
  have h1x : 0 < 1 / sumSq (xlog nvec) := by positivity
  have hmulinf : fmul FloatR.pinf (.fin (1 / sumSq (xlog nvec))) = FloatR.pinf := by
    simp only [fmul]
    rw [if_pos h1x]
  rw [hmulinf]
  rfl

/-- C1 (amended: the delta formula needs at least 3 points; with exactly 2 the
code divides by zero and returns delta = +inf, see C1_regress_counterexample):
for parallel arrays with every n > 1, every r > 0 and sum(x^2) > 0, regress
returns a = sum(x*y)/sum(x^2), the least-squares solution of y = a*x through
the origin, and delta = sqrt((sum((y-a*x)^2)/(len(y)-2))/sum(x^2)). -/
theorem C1_regress_formula (nvec yvec : List ℝ)
    (hlen : nvec.length = yvec.length) (h3 : 3 ≤ yvec.length)
    (hn : ∀ n ∈ nvec, 1 < n) (hr : ∀ r ∈ yvec, 0 < r)
    (hx : 0 < sumSq (xlog nvec)) :
    regress nvec yvec =
      (.fin (dotSum (xlog nvec) (ylog yvec) / sumSq (xlog nvec)),
       .fin (Real.sqrt ((residSq (dotSum (xlog nvec) (ylog yvec) / sumSq (xlog nvec)) (ylog yvec) (xlog nvec)
            / ((yvec.length : ℝ) - 2)) / sumSq (xlog nvec))))
    ∧ ∀ b : ℝ,
        residSq (dotSum (xlog nvec) (ylog yvec) / sumSq (xlog nvec)) (ylog yvec) (xlog nvec)
          ≤ residSq b (ylog yvec) (xlog nvec) := by
  have hxne : sumSq (xlog nvec) ≠ 0 := ne_of_gt hx
  have heq := regress_eq_of_pos nvec yvec hn hr hxne
  set A := dotSum (xlog nvec) (ylog yvec) / sumSq (xlog nvec) with hA
  set S := residSq A (ylog yvec) (xlog nvec) with hS
  have h3r : (3:ℝ) ≤ (yvec.length : ℝ) := by exact_mod_cast h3
  have hm : ((yvec.length : ℝ) - 2) ≠ 0 := by linarith
  have hmpos : (0:ℝ) < (yvec.length : ℝ) - 2 := by linarith
  have hSnn : 0 ≤ S := residSq_nonneg _ _ _
  constructor
  · rw [heq]
    have hdy : fdiv (.fin S) (.fin ((yvec.length : ℝ) - 2)) = .fin (S / ((yvec.length : ℝ) - 2)) := by
      simp [fdiv, hm]
    rw [hdy]
    have hmm : fmul (.fin (S / ((yvec.length : ℝ) - 2))) (.fin (1 / sumSq (xlog nvec)))
        = .fin (S / ((yvec.length : ℝ) - 2) * (1 / sumSq (xlog nvec))) := rfl
    rw [hmm]
    have harg : (0:ℝ) ≤ S / ((yvec.length : ℝ) - 2) * (1 / sumSq (xlog nvec)) :=
      mul_nonneg (div_nonneg hSnn hmpos.le) (by positivity)
    have hsq : fsqrt (.fin (S / ((yvec.length : ℝ) - 2) * (1 / sumSq (xlog nvec))))
        = .fin (Real.sqrt (S / ((yvec.length : ℝ) - 2) * (1 / sumSq (xlog nvec)))) := by
      simp only [fsqrt]
      rw [if_neg (not_lt.mpr harg)]
    rw [hsq, mul_one_div]
  · intro b
    have hlens : (ylog yvec).length = (xlog nvec).length := by
      simp [xlog, ylog, hlen]
    exact residSq_min _ _ hlens hx b

lemma xlog_3pts : xlog [(11:ℝ), 101, 1001] = [1, 2, 3] := by
  unfold xlog
  simp only [List.map_cons, List.map_nil]
  rw [show (11:ℝ) - 1 = 10 by norm_num, show (101:ℝ) - 1 = 100 by norm_num,
    show (1001:ℝ) - 1 = 1000 by norm_num, logb10_10, logb10_100, logb10_1000]

lemma ylog_3pts : ylog [(10:ℝ), 100, 1000] = [1, 2, 3] := by
  unfold ylog
  simp only [List.map_cons, List.map_nil]
  rw [logb10_10, logb10_100, logb10_1000]

/-- Witness for C1_regress_formula: n = [11,101,1001], r = [10,100,1000] give
x = y = [1,2,3], slope 1 and delta 0. -/
theorem C1_regress_formula_witness :
    (∀ n ∈ [(11:ℝ), 101, 1001], 1 < n) ∧ (∀ r ∈ [(10:ℝ), 100, 1000], 0 < r) ∧
    0 < sumSq (xlog [(11:ℝ), 101, 1001]) ∧
    regress [(11:ℝ), 101, 1001] [10, 100, 1000] = (.fin 1, .fin 0) := by
  have hn : ∀ n ∈ [(11:ℝ), 101, 1001], 1 < n := by intro n hn; fin_cases hn <;> norm_num
  have hr : ∀ r ∈ [(10:ℝ), 100, 1000], 0 < r := by intro r hr; fin_cases hr <;> norm_num
  have hx : 0 < sumSq (xlog [(11:ℝ), 101, 1001]) := by
    rw [xlog_3pts]; norm_num [sumSq_cons, sumSq_nil]
  have h := (C1_regress_formula [(11:ℝ), 101, 1001] [10, 100, 1000] rfl (by norm_num) hn hr hx).1
  refine ⟨hn, hr, hx, ?_⟩
  rw [h, xlog_3pts, ylog_3pts]
  norm_num [dotSum_cons, dotSum_nil, sumSq_cons, sumSq_nil, residSq_cons, residSq_nil,
    Prod.mk.injEq, FloatR.fin.injEq, Real.sqrt_eq_zero']

lemma xlog_2pts : xlog [(11:ℝ), 101] = [1, 2] := by
  unfold xlog
  simp only [List.map_cons, List.map_nil]
  rw [show (11:ℝ) - 1 = 10 by norm_num, show (101:ℝ) - 1 = 100 by norm_num, logb10_10, logb10_100]

lemma ylog_10_1000 : ylog [(10:ℝ), 1000] = [1, 3] := by
  unfold ylog
  simp only [List.map_cons, List.map_nil]
  rw [logb10_10, logb10_1000]

lemma ylog_10_10 : ylog [(10:ℝ), 10] = [1, 1] := by
  unfold ylog
  simp only [List.map_cons, List.map_nil]
  rw [logb10_10]

/-- Counterexample to C1 as stated: the claim admits arrays of length 2, but
on n = [11,101], r = [10,1000] the code returns delta = +inf (the residual sum
is divided by len(y) - 2 = 0), which is not the real number sqrt((sum((y-a*x)^2)
/ (len(y)-2)) / sum(x^2)) the claim asserts, for any value of that expression. -/
theorem C1_regress_counterexample :
    (regress [(11:ℝ), 101] [10, 1000]).2 = FloatR.pinf ∧
    FloatR.pinf ≠ FloatR.fin (Real.sqrt ((residSq
        (dotSum (xlog [(11:ℝ), 101]) (ylog [(10:ℝ), 1000]) / sumSq (xlog [(11:ℝ), 101]))
        (ylog [(10:ℝ), 1000]) (xlog [(11:ℝ), 101])
        / (([(10:ℝ), 1000].length : ℝ) - 2)) / sumSq (xlog [(11:ℝ), 101]))) := by
  constructor
  · apply regress_two_pinf
    · rfl
    · intro n hn; fin_cases hn <;> norm_num
    · intro r hr; fin_cases hr <;> norm_num
    · rw [xlog_2pts]; norm_num [sumSq_cons, sumSq_nil]
    · rw [xlog_2pts, ylog_10_1000]
      norm_num [dotSum_cons, dotSum_nil, sumSq_cons, sumSq_nil, residSq_cons, residSq_nil]
  · intro h
    exact FloatR.noConfusion h

/-- C3 (corrected): regress has no error path at all; it never raises.  With
exactly two valid points and a nonzero residual it silently returns
delta = +inf, exactly what the spec says a reimplementation must not do. -/
theorem C3_regress_two_points_inf (nvec yvec : List ℝ) (hy2 : yvec.length = 2)
    (hn : ∀ n ∈ nvec, 1 < n) (hr : ∀ r ∈ yvec, 0 < r)
    (hx : 0 < sumSq (xlog nvec))
    (hres : 0 < residSq (dotSum (xlog nvec) (ylog yvec) / sumSq (xlog nvec)) (ylog yvec) (xlog nvec)) :
    (regress nvec yvec).2 = FloatR.pinf :=
  regress_two_pinf nvec yvec hy2 hn hr hx hres

lemma xlog_11_1001 : xlog [(11:ℝ), 1001] = [1, 3] := by
  unfold xlog
  simp only [List.map_cons, List.map_nil]
  rw [show (11:ℝ) - 1 = 10 by norm_num, show (1001:ℝ) - 1 = 1000 by norm_num, logb10_10, logb10_1000]

/-- Witness for C3_regress_two_points_inf at n = [11,1001], r = [10,10]. -/
theorem C3_regress_two_points_inf_witness :
    ([(10:ℝ), 10].length = 2) ∧ 0 < sumSq (xlog [(11:ℝ), 1001]) ∧
    (regress [(11:ℝ), 1001] [10, 10]).2 = FloatR.pinf := by
  refine ⟨rfl, ?_, ?_⟩
  · rw [xlog_11_1001]; norm_num [sumSq_cons, sumSq_nil]
  · apply C3_regress_two_points_inf
    · rfl
    · intro n hn; fin_cases hn <;> norm_num
    · intro r hr; fin_cases hr <;> norm_num
    · rw [xlog_11_1001]; norm_num [sumSq_cons, sumSq_nil]
    · rw [xlog_11_1001, ylog_10_10]
      norm_num [dotSum_cons, dotSum_nil, sumSq_cons, sumSq_nil, residSq_cons, residSq_nil]

/-- Counterexample to C3 as stated: at the two-point input n = [11,101],
r = [10,10] regress raises nothing and returns the pair (3/5, +inf). -/
theorem C3_regress_counterexample :
    (regress [(11:ℝ), 101] [10, 10]).1 = .fin (3/5) ∧
    (regress [(11:ℝ), 101] [10, 10]).2 = FloatR.pinf := by
  have hn : ∀ n ∈ [(11:ℝ), 101], 1 < n := by intro n hn; fin_cases hn <;> norm_num
  have hr : ∀ r ∈ [(10:ℝ), 10], 0 < r := by intro r hr; fin_cases hr <;> norm_num
  have hx : 0 < sumSq (xlog [(11:ℝ), 101]) := by
    rw [xlog_2pts]; norm_num [sumSq_cons, sumSq_nil]
  constructor
  · have heq := regress_eq_of_pos [(11:ℝ), 101] [10, 10] hn hr (ne_of_gt hx)
    rw [heq, xlog_2pts, ylog_10_10]
    norm_num [dotSum_cons, dotSum_nil, sumSq_cons, sumSq_nil]
  · apply regress_two_pinf [(11:ℝ), 101] [10, 10] rfl hn hr hx
    rw [xlog_2pts, ylog_10_10]
    norm_num [dotSum_cons, dotSum_nil, sumSq_cons, sumSq_nil, residSq_cons, residSq_nil]

lemma logb10_4 : Real.logb 10 (4:ℝ) = 2 * Real.logb 10 2 := by
  rw [show (4:ℝ) = (2:ℝ) ^ (2:ℕ) by norm_num]
  simp only [Real.logb]
  rw [Real.log_pow]
  push_cast
  ring

lemma logb10_8 : Real.logb 10 (8:ℝ) = 3 * Real.logb 10 2 := by
  rw [show (8:ℝ) = (2:ℝ) ^ (3:ℕ) by norm_num]
  simp only [Real.logb]
  rw [Real.log_pow]
  push_cast
  ring

lemma logb10_rpow (c A : ℝ) (hc : 0 < c) : Real.logb 10 (c ^ A) = A * Real.logb 10 c := by
  simp only [Real.logb]
  rw [Real.log_rpow hc]
  ring

lemma xlog_syn : xlog [(2:ℝ), 3, 5, 9]
    = [0, Real.logb 10 2, 2 * Real.logb 10 2, 3 * Real.logb 10 2] := by
  unfold xlog
  simp only [List.map_cons, List.map_nil]
  rw [show (2:ℝ) - 1 = 1 by norm_num, show (3:ℝ) - 1 = 2 by norm_num,
    show (5:ℝ) - 1 = 4 by norm_num, show (9:ℝ) - 1 = 8 by norm_num,
    Real.logb_one, logb10_4, logb10_8]

lemma ylog_syn (A : ℝ) : ylog [((2:ℝ) - 1) ^ A, ((3:ℝ) - 1) ^ A, ((5:ℝ) - 1) ^ A, ((9:ℝ) - 1) ^ A]
    = [0, A * Real.logb 10 2, A * (2 * Real.logb 10 2), A * (3 * Real.logb 10 2)] := by
  unfold ylog
  simp only [List.map_cons, List.map_nil]
  rw [show (2:ℝ) - 1 = 1 by norm_num, show (3:ℝ) - 1 = 2 by norm_num,
    show (5:ℝ) - 1 = 4 by norm_num, show (9:ℝ) - 1 = 8 by norm_num,
    Real.one_rpow, Real.logb_one,
    logb10_rpow 2 A (by norm_num), logb10_rpow 4 A (by norm_num), logb10_rpow 8 A (by norm_num),
    logb10_4, logb10_8]

/-- C5: on the synthetic input n = [2,3,5,9], r_i = (n_i - 1)^A, regress
returns the slope a = A and the standard error delta = 0 exactly (stronger
than the floating tolerance the claim allows). -/
theorem C5_regress_synthetic (A : ℝ) :
    regress [(2:ℝ), 3, 5, 9] [((2:ℝ) - 1) ^ A, ((3:ℝ) - 1) ^ A, ((5:ℝ) - 1) ^ A, ((9:ℝ) - 1) ^ A]
      = (.fin A, .fin 0) := by
  have hn : ∀ n ∈ [(2:ℝ), 3, 5, 9], 1 < n := by intro n hn; fin_cases hn <;> norm_num
  have hr : ∀ r ∈ [((2:ℝ) - 1) ^ A, ((3:ℝ) - 1) ^ A, ((5:ℝ) - 1) ^ A, ((9:ℝ) - 1) ^ A], 0 < r := by
    intro r hr
    fin_cases hr <;> exact Real.rpow_pos_of_pos (by norm_num) A
  have ht : 0 < Real.logb 10 2 := Real.logb_pos (by norm_num) (by norm_num)
  have hsum : sumSq [0, Real.logb 10 2, 2 * Real.logb 10 2, 3 * Real.logb 10 2]
      = 14 * (Real.logb 10 2 * Real.logb 10 2) := by
    simp only [sumSq_cons, sumSq_nil]
    ring
  have hx : 0 < sumSq (xlog [(2:ℝ), 3, 5, 9]) := by
    rw [xlog_syn, hsum]
    positivity
  have heq := regress_eq_of_pos [(2:ℝ), 3, 5, 9]
    [((2:ℝ) - 1) ^ A, ((3:ℝ) - 1) ^ A, ((5:ℝ) - 1) ^ A, ((9:ℝ) - 1) ^ A] hn hr (ne_of_gt hx)
  rw [heq, xlog_syn, ylog_syn, hsum]
  have hdot : dotSum [0, Real.logb 10 2, 2 * Real.logb 10 2, 3 * Real.logb 10 2]
      [0, A * Real.logb 10 2, A * (2 * Real.logb 10 2), A * (3 * Real.logb 10 2)]
      = A * (14 * (Real.logb 10 2 * Real.logb 10 2)) := by
    simp only [dotSum_cons, dotSum_nil]
    ring
  rw [hdot]
  have hA : A * (14 * (Real.logb 10 2 * Real.logb 10 2)) / (14 * (Real.logb 10 2 * Real.logb 10 2))
      = A := by
    field_simp
  rw [hA]
  have hres : residSq A [0, A * Real.logb 10 2, A * (2 * Real.logb 10 2), A * (3 * Real.logb 10 2)]
      [0, Real.logb 10 2, 2 * Real.logb 10 2, 3 * Real.logb 10 2] = 0 := by
    simp only [residSq_cons, residSq_nil]
    ring
  rw [hres]
  have hlen : (([((2:ℝ) - 1) ^ A, ((3:ℝ) - 1) ^ A, ((5:ℝ) - 1) ^ A, ((9:ℝ) - 1) ^ A].length : ℝ) - 2)
      = 2 := by
    simp
    norm_num
  rw [hlen]
  have hdy : fdiv (.fin (0:ℝ)) (.fin (2:ℝ)) = .fin 0 := by
    simp [fdiv]
  rw [hdy]
  have hmm : fmul (.fin (0:ℝ)) (.fin (1 / (14 * (Real.logb 10 2 * Real.logb 10 2)))) = .fin 0 := by
    simp only [fmul]
    norm_num
  rw [hmm]
  have hsq : fsqrt (.fin (0:ℝ)) = .fin 0 := by
    simp [fsqrt, Real.sqrt_zero]
  rw [hsq]

/- Embedding of the Sampler: end_vector (analysismodule.py lines 26-42) and
ProcessAnalysis.get_points (lines 131-158). -/

/-- A parsed LAMMPS snapshot as lammpsio exposes it to this code: the
timestep used for ordering, the particle count N, and the per-particle
position array (one 3-vector per particle, in schema order). -/
structure Snapshot where
  step : ℤ
  N : ℕ
  position : List (ℝ × ℝ × ℝ)

/-- Embedding of end_vector: position[-1] - position[0], componentwise.
Indexing an empty position array raises IndexError, modelled as none. -/
noncomputable def end_vector (s : Snapshot) : Option (ℝ × ℝ × ℝ) :=
  match s.position.getLast?, s.position.head? with
  | some pl, some p0 => some (pl.1 - p0.1, pl.2.1 - p0.2.1, pl.2.2 - p0.2.2)
  | _, _ => none

/-- Squared norm of a 3-vector: what np.sum(rmat ** 2, 1) computes per row. -/
noncomputable def sqNorm3 (v : ℝ × ℝ × ℝ) : ℝ := v.1 * v.1 + v.2.1 * v.2.1 + v.2.2 * v.2.2

/-- Python sorted(dump, key=lambda snap: snap.step).  Python sorted is stable,
and a stable sort is determined extensionally by the key order, so insertion
sort on the non-strict key comparison agrees with it on every input. -/
def sortByStep (snaps : List Snapshot) : List Snapshot :=
  List.insertionSort (fun a b => a.step ≤ b.step) snaps

/-- Python slice l[-count:] for a natural count: the whole list when
count = 0 (l[-0:] is l[0:]) or count >= len(l), the last count elements
otherwise. -/
def lastSlice (l : List Snapshot) (count : ℕ) : List Snapshot :=
  if count = 0 then l else l.drop (l.length - count)

/-- Sequencing of fallible per-element computations, as a Python loop that can
raise at each element: some list of all results, or none at the first raise. -/
def seqOption {α β : Type} (f : α → Option β) : List α → Option (List β)
  | [] => some []
  | a :: l => match f a, seqOption f l with
    | some b, some bs => some (b :: bs)
    | _, _ => none

/-- One iteration of the get_points loop for a single trajectory: the pair
(sorted[0].N, mean of squared end-to-end norms over the slice [-count:]).
An empty trajectory raises (none), as does any empty position array. -/
noncomputable def dumpPoint (dump : List Snapshot) (count : ℕ) : Option (ℕ × ℝ) :=
  match (sortByStep dump).head?, seqOption end_vector (lastSlice (sortByStep dump) count) with
  | some first, some vecs => some (first.N, (vecs.map sqNorm3).sum / ((vecs.map sqNorm3).length : ℝ))
  | _, _ => none

/-- Embedding of ProcessAnalysis.get_points as a function of the loaded
trajectory list: the parallel arrays (nl, rl) of np.array((nl, rl)). -/
noncomputable def getPointsOf (dumps : List (List Snapshot)) (count : ℕ) : Option (List ℕ × List ℝ) :=
  match seqOption (fun d => dumpPoint d count) dumps with
  | some pts => some (pts.map Prod.fst, pts.map Prod.snd)
  | none => none

/-- The Sampler contract in the specification's own words: sort the snapshots
ascending by step, take the last k in that order, compute each selected
snapshot's squared end-to-end distance, and return their mean over the k
selected snapshots, paired with the particle count of the first snapshot in
sorted order. -/
noncomputable def samplerSpec (snaps : List Snapshot) (k : ℕ) : Option (ℕ × ℝ) :=
  match (sortByStep snaps).head?,
      seqOption end_vector ((sortByStep snaps).drop ((sortByStep snaps).length - k)) with
  | some first, some vecs => some (first.N, (vecs.map sqNorm3).sum / (k : ℝ))
  | _, _ => none

lemma seqOption_length {α β : Type} (f : α → Option β) (l : List α) :
    ∀ bs, seqOption f l = some bs → bs.length = l.length := by
  induction l with
  | nil => intro bs h; simp [seqOption] at h; simp [← h]
  | cons a l ih =>
      intro bs h
      simp only [seqOption] at h
      cases hfa : f a with
      | none => rw [hfa] at h; simp at h
      | some b =>
          rw [hfa] at h
          cases hs : seqOption f l with
          | none => rw [hs] at h; simp at h
          | some bs2 =>
              rw [hs] at h
              simp at h
              rw [← h]
              simp [ih bs2 hs]

lemma getPointsOf_single (d : List Snapshot) (c : ℕ) :
    getPointsOf [d] c = Option.map (fun p => ([p.1], [p.2])) (dumpPoint d c) := by
  cases h : dumpPoint d c <;> simp [getPointsOf, seqOption, h]

/-- C2: the Sampler agrees with the specification's contract samplerSpec for
every window size 1 <= k <= number of snapshots, and in particular a
3-snapshot trajectory (fed in scrambled order) with k = 2 yields the mean of
exactly the two largest-step snapshots' squared end-to-end distances, paired
with the particle count of the first snapshot in sorted order. -/
theorem C2_sampler_spec :
    (∀ (snaps : List Snapshot) (k : ℕ), 1 ≤ k → k ≤ snaps.length →
      getPointsOf [snaps] k = Option.map (fun p => ([p.1], [p.2])) (samplerSpec snaps k))
    ∧ ∀ (s1 s2 s3 : Snapshot) (v2 v3 : ℝ × ℝ × ℝ),
        s1.step < s2.step → s2.step < s3.step →
        end_vector s2 = some v2 → end_vector s3 = some v3 →
        getPointsOf [[s2, s3, s1]] 2 = some ([s1.N], [(sqNorm3 v2 + sqNorm3 v3) / 2]) := by
  constructor
  · intro snaps k hk1 hk2
    rw [getPointsOf_single]
    have hslice : lastSlice (sortByStep snaps) k
        = (sortByStep snaps).drop ((sortByStep snaps).length - k) := by
      unfold lastSlice
      rw [if_neg (by omega : ¬ k = 0)]
    unfold dumpPoint samplerSpec
    rw [hslice]
    cases hh : (sortByStep snaps).head? with
    | none => rfl
    | some first =>
        cases hv : seqOption end_vector ((sortByStep snaps).drop ((sortByStep snaps).length - k)) with
        | none => rfl
        | some vecs =>
            have hlen : vecs.length = k := by
              have h1 := seqOption_length end_vector _ _ hv
              rw [List.length_drop] at h1
              have h2 : (sortByStep snaps).length = snaps.length :=
                List.length_insertionSort _ _
              omega
            simp [hlen]
  · intro s1 s2 s3 v2 v3 h12 h23 hv2 hv3
    have h21 : ¬ (s2.step ≤ s1.step) := not_le.mpr h12
    have h31 : ¬ (s3.step ≤ s1.step) := not_le.mpr (h12.trans h23)
    have h23le : s2.step ≤ s3.step := le_of_lt h23
    have hsort : sortByStep [s2, s3, s1] = [s1, s2, s3] := by
      unfold sortByStep
      simp [List.insertionSort, List.orderedInsert, h21, h31, h23le]
    rw [getPointsOf_single]
    unfold dumpPoint
    rw [hsort]
    have hslice : lastSlice [s1, s2, s3] 2 = [s2, s3] := by
      simp [lastSlice]
    rw [hslice]
    simp [seqOption, hv2, hv3]

/-- Witness for C2_sampler_spec: a concrete scrambled 3-snapshot trajectory
with hand-computed squared end-to-end distances 25 and 4 for the two
largest-step snapshots, giving mean 29/2. -/
theorem C2_sampler_spec_witness :
    getPointsOf [[⟨1, 2, [((0:ℝ), (0:ℝ), (0:ℝ)), (0, 3, 4)]⟩,
                  ⟨2, 2, [((1:ℝ), (1:ℝ), (1:ℝ)), (1, 1, 3)]⟩,
                  ⟨0, 2, [((0:ℝ), (0:ℝ), (0:ℝ)), (1, 2, 2)]⟩]] 2
      = some ([2], [29 / 2]) := by
  have h := C2_sampler_spec.2
    ⟨0, 2, [((0:ℝ), (0:ℝ), (0:ℝ)), (1, 2, 2)]⟩
    ⟨1, 2, [((0:ℝ), (0:ℝ), (0:ℝ)), (0, 3, 4)]⟩
    ⟨2, 2, [((1:ℝ), (1:ℝ), (1:ℝ)), (1, 1, 3)]⟩
    ((0:ℝ) - 0, (3:ℝ) - 0, (4:ℝ) - 0)
    ((1:ℝ) - 1, (1:ℝ) - 1, (3:ℝ) - 1)
    (by decide) (by decide) rfl rfl
  rw [h]
  norm_num [sqNorm3]

lemma sortByStep_sorted (l : List Snapshot) :
    List.Sorted (fun a b : Snapshot => a.step ≤ b.step) (sortByStep l) := by
  haveI : IsTotal Snapshot (fun a b : Snapshot => a.step ≤ b.step) :=
    ⟨fun a b => le_total a.step b.step⟩
  haveI : IsTrans Snapshot (fun a b : Snapshot => a.step ≤ b.step) :=
    ⟨fun _ _ _ h1 h2 => le_trans h1 h2⟩
  exact List.sorted_insertionSort _ l

lemma sortByStep_perm (l : List Snapshot) : (sortByStep l).Perm l :=
  List.perm_insertionSort _ l

lemma sorted_strict_of_nodup (l : List Snapshot)
    (hs : List.Sorted (fun a b : Snapshot => a.step ≤ b.step) l)
    (hnd : (l.map Snapshot.step).Nodup) :
    List.Sorted (fun a b : Snapshot => a.step < b.step) l := by
  have hne : List.Pairwise (fun a b : Snapshot => a.step ≠ b.step) l :=
    List.pairwise_map.mp hnd
  exact (List.Pairwise.and hs hne).imp (fun h => lt_of_le_of_ne h.1 h.2)

/-- Two permuted snapshot lists with pairwise-distinct steps sort to the same
list; with a duplicated step the stable sort preserves the input order of the
tied snapshots and this fails (see the C6 counterexample). -/
lemma sortByStep_eq_of_perm (l1 l2 : List Snapshot) (hp : l1.Perm l2)
    (hnd : (l1.map Snapshot.step).Nodup) : sortByStep l1 = sortByStep l2 := by
  have hnd1 : ((sortByStep l1).map Snapshot.step).Nodup :=
    (((sortByStep_perm l1).map Snapshot.step).nodup_iff).mpr hnd
  have hnd2 : (l2.map Snapshot.step).Nodup :=
    ((hp.map Snapshot.step).nodup_iff).mp hnd
  have hnd2s : ((sortByStep l2).map Snapshot.step).Nodup :=
    (((sortByStep_perm l2).map Snapshot.step).nodup_iff).mpr hnd2
  have hperm : (sortByStep l1).Perm (sortByStep l2) :=
    ((sortByStep_perm l1).trans hp).trans (sortByStep_perm l2).symm
  exact @List.eq_of_perm_of_sorted Snapshot (fun a b : Snapshot => a.step < b.step)
    ⟨fun a b h1 h2 => absurd (h1.trans h2) (lt_irrefl _)⟩ _ _ hperm
    (sorted_strict_of_nodup _ (sortByStep_sorted l1) hnd1)
    (sorted_strict_of_nodup _ (sortByStep_sorted l2) hnd2s)

/-- C6 (amended: the snapshots' steps must be pairwise distinct; with a
duplicated step the stable sort keeps the input order of the tied snapshots
and the output depends on it, see C6_sampler_perm_counterexample): the Sampler
output is invariant under any permutation of the input ordering of a
trajectory's snapshots. -/
theorem C6_sampler_perm_invariant (l1 l2 : List Snapshot) (k : ℕ)
    (hp : l1.Perm l2) (hnd : (l1.map Snapshot.step).Nodup) :
    getPointsOf [l1] k = getPointsOf [l2] k := by
  have h := sortByStep_eq_of_perm l1 l2 hp hnd
  rw [getPointsOf_single, getPointsOf_single]
  unfold dumpPoint
  rw [h]

/-- Witness for C6_sampler_perm_invariant: swapping two distinct-step
snapshots leaves the Sampler output unchanged. -/
theorem C6_sampler_perm_invariant_witness :
    getPointsOf [[⟨0, 2, [((0:ℝ), (0:ℝ), (0:ℝ)), (1, 0, 0)]⟩,
                  ⟨1, 2, [((0:ℝ), (0:ℝ), (0:ℝ)), (2, 0, 0)]⟩]] 1
      = getPointsOf [[⟨1, 2, [((0:ℝ), (0:ℝ), (0:ℝ)), (2, 0, 0)]⟩,
                      ⟨0, 2, [((0:ℝ), (0:ℝ), (0:ℝ)), (1, 0, 0)]⟩]] 1 := by
  exact C6_sampler_perm_invariant _ _ 1
    (List.Perm.swap _ _ [])
    (by decide)

/-- Counterexample to C6 as stated: two snapshots share step 0 but have
different positions; with k = 1 the stable sort keeps the input order, the
window picks whichever came last, and the two input orderings give mean
squared distances 4 and 1 respectively. -/
theorem C6_sampler_perm_counterexample :
    getPointsOf [[⟨0, 2, [((0:ℝ), (0:ℝ), (0:ℝ)), (1, 0, 0)]⟩,
                  ⟨0, 2, [((0:ℝ), (0:ℝ), (0:ℝ)), (2, 0, 0)]⟩]] 1
      ≠ getPointsOf [[⟨0, 2, [((0:ℝ), (0:ℝ), (0:ℝ)), (2, 0, 0)]⟩,
                      ⟨0, 2, [((0:ℝ), (0:ℝ), (0:ℝ)), (1, 0, 0)]⟩]] 1 := by
  have e1 : getPointsOf [[⟨0, 2, [((0:ℝ), (0:ℝ), (0:ℝ)), (1, 0, 0)]⟩,
                  ⟨0, 2, [((0:ℝ), (0:ℝ), (0:ℝ)), (2, 0, 0)]⟩]] 1 = some ([2], [4]) := by
    rw [getPointsOf_single]
    have hsort : sortByStep [⟨0, 2, [((0:ℝ), (0:ℝ), (0:ℝ)), (1, 0, 0)]⟩,
        ⟨0, 2, [((0:ℝ), (0:ℝ), (0:ℝ)), (2, 0, 0)]⟩]
        = [⟨0, 2, [((0:ℝ), (0:ℝ), (0:ℝ)), (1, 0, 0)]⟩,
           ⟨0, 2, [((0:ℝ), (0:ℝ), (0:ℝ)), (2, 0, 0)]⟩] := by
      unfold sortByStep
      simp [List.insertionSort, List.orderedInsert]
    unfold dumpPoint
    rw [hsort]
    have hslice : lastSlice [⟨0, 2, [((0:ℝ), (0:ℝ), (0:ℝ)), (1, 0, 0)]⟩,
        ⟨0, 2, [((0:ℝ), (0:ℝ), (0:ℝ)), (2, 0, 0)]⟩] 1
        = [⟨0, 2, [((0:ℝ), (0:ℝ), (0:ℝ)), (2, 0, 0)]⟩] := by
      simp [lastSlice]
    rw [hslice]
    simp [seqOption, end_vector, sqNorm3]
    norm_num
  have e2 : getPointsOf [[⟨0, 2, [((0:ℝ), (0:ℝ), (0:ℝ)), (2, 0, 0)]⟩,
                  ⟨0, 2, [((0:ℝ), (0:ℝ), (0:ℝ)), (1, 0, 0)]⟩]] 1 = some ([2], [1]) := by
    rw [getPointsOf_single]
    have hsort : sortByStep [⟨0, 2, [((0:ℝ), (0:ℝ), (0:ℝ)), (2, 0, 0)]⟩,
        ⟨0, 2, [((0:ℝ), (0:ℝ), (0:ℝ)), (1, 0, 0)]⟩]
        = [⟨0, 2, [((0:ℝ), (0:ℝ), (0:ℝ)), (2, 0, 0)]⟩,
           ⟨0, 2, [((0:ℝ), (0:ℝ), (0:ℝ)), (1, 0, 0)]⟩] := by
      unfold sortByStep
      simp [List.insertionSort, List.orderedInsert]
    unfold dumpPoint
    rw [hsort]
    have hslice : lastSlice [⟨0, 2, [((0:ℝ), (0:ℝ), (0:ℝ)), (2, 0, 0)]⟩,
        ⟨0, 2, [((0:ℝ), (0:ℝ), (0:ℝ)), (1, 0, 0)]⟩] 1
        = [⟨0, 2, [((0:ℝ), (0:ℝ), (0:ℝ)), (1, 0, 0)]⟩] := by
      simp [lastSlice]
    rw [hslice]
    simp [seqOption, end_vector, sqNorm3]
  rw [e1, e2]
  simp

lemma end_vector_isSome (s : Snapshot) (h : s.position ≠ []) : (end_vector s).isSome = true := by
  have h1 : s.position.getLast?.isSome = true := List.getLast?_isSome.mpr h
  have h2 : s.position.head?.isSome = true := List.head?_isSome.mpr h
  obtain ⟨pl, hpl⟩ := Option.isSome_iff_exists.mp h1
  obtain ⟨p0, hp0⟩ := Option.isSome_iff_exists.mp h2
  unfold end_vector
  rw [hpl, hp0]
  rfl

lemma seqOption_isSome {α β : Type} (f : α → Option β) (l : List α)
    (h : ∀ a ∈ l, (f a).isSome = true) : (seqOption f l).isSome = true := by
  induction l with
  | nil => rfl
  | cons a l ih =>
      obtain ⟨b, hb⟩ := Option.isSome_iff_exists.mp (h a (by simp))
      have h2 := ih (fun x hx => h x (by simp [hx]))
      obtain ⟨bs, hbs⟩ := Option.isSome_iff_exists.mp h2
      simp [seqOption, hb, hbs]

/-- C10: when the requested window size k exceeds the number m of snapshots,
get_points raises nothing: the Python slice [-k:] clamps to the whole sorted
trajectory, so the result equals the full-window (k = m) result and is a
defined value. -/
theorem C10_sampler_clamp (snaps : List Snapshot) (k : ℕ)
    (hne : snaps ≠ []) (hk : snaps.length < k)
    (hpos : ∀ s ∈ snaps, s.position ≠ []) :
    getPointsOf [snaps] k = getPointsOf [snaps] snaps.length ∧
    (getPointsOf [snaps] k).isSome = true := by
  have hlen : (sortByStep snaps).length = snaps.length := List.length_insertionSort _ _
  have hnel : snaps.length ≠ 0 := by
    cases snaps with
    | nil => exact absurd rfl hne
    | cons a l => simp
  have hslice1 : lastSlice (sortByStep snaps) k = sortByStep snaps := by
    unfold lastSlice
    rw [if_neg (by omega : ¬ k = 0), Nat.sub_eq_zero_of_le (by omega), List.drop_zero]
  have hslice2 : lastSlice (sortByStep snaps) snaps.length = sortByStep snaps := by
    unfold lastSlice
    rw [if_neg hnel, Nat.sub_eq_zero_of_le (by omega), List.drop_zero]
  constructor
  · rw [getPointsOf_single, getPointsOf_single]
    unfold dumpPoint
    rw [hslice1, hslice2]
  · rw [getPointsOf_single]
    unfold dumpPoint
    rw [hslice1]
    have hh : (sortByStep snaps).head?.isSome = true := by
      rw [List.head?_isSome]
      intro hcon
      have hc0 : (sortByStep snaps).length = 0 := by rw [hcon]; rfl
      omega
    obtain ⟨first, hfirst⟩ := Option.isSome_iff_exists.mp hh
    have hsv : (seqOption end_vector (sortByStep snaps)).isSome = true := by
      apply seqOption_isSome
      intro s hs
      exact end_vector_isSome s (hpos s ((sortByStep_perm snaps).mem_iff.mp hs))
    obtain ⟨vecs, hvecs⟩ := Option.isSome_iff_exists.mp hsv
    rw [hfirst, hvecs]
    rfl

/-- Witness for C10_sampler_clamp: one snapshot, window 3. -/
theorem C10_sampler_clamp_witness :
    getPointsOf [[⟨0, 2, [((0:ℝ), (0:ℝ), (0:ℝ)), (1, 0, 0)]⟩]] 3
      = getPointsOf [[⟨0, 2, [((0:ℝ), (0:ℝ), (0:ℝ)), (1, 0, 0)]⟩]] 1 ∧
    (getPointsOf [[⟨0, 2, [((0:ℝ), (0:ℝ), (0:ℝ)), (1, 0, 0)]⟩]] 3).isSome = true := by
  have h := C10_sampler_clamp [⟨0, 2, [((0:ℝ), (0:ℝ), (0:ℝ)), (1, 0, 0)]⟩] 3
    (by simp) (by simp) (by intro s hs; fin_cases hs; simp)
  simpa using h

/- Embedding of the main script Analyzer.py and of ProcessAnalysis as an
object: its state after __init__ and its two methods as state transformers. -/

/-- The content schema a caller declares (column index per field), after the
TypedDict SchemaType of analysismodule.py lines 14-23. -/
structure SchemaType where
  id : Option ℕ := none
  typeid : Option ℕ := none
  molecule : Option ℕ := none
  charge : Option ℕ := none
  mass : Option ℕ := none
  position : Option (ℕ × ℕ × ℕ) := none
  velocity : Option (ℕ × ℕ × ℕ) := none
  image : Option (ℕ × ℕ × ℕ) := none

/-- State of a ProcessAnalysis instance: the loaded trajectory list
self.dumps and the stored schema. -/
structure ProcessAnalysis where
  dumps : List (List Snapshot)
  schema : SchemaType

/-- ProcessAnalysis.__init__ (lines 111-129): each selected file is parsed
once by the external DumpFile reader, supplied here as the function load. -/
def ProcessAnalysis.init (load : String → List Snapshot) (files : List String)
    (schema : SchemaType) : ProcessAnalysis :=
  ⟨files.map load, schema⟩

/-- ProcessAnalysis.get_points as a state transformer: the method body only
reads self.dumps and assigns nothing to self, so the post-state is the
pre-state. -/
noncomputable def ProcessAnalysis.get_points (s : ProcessAnalysis) (count : ℕ) :
    ProcessAnalysis × Option (List ℕ × List ℝ) :=
  (s, getPointsOf s.dumps count)

/-- Alias for the module-level regress; inside the method below the bare name
would resolve to the method being defined. -/
noncomputable def regressModule : List ℝ → List ℝ → FloatR × FloatR := regress

/-- ProcessAnalysis.regress (lines 160-182) as a state transformer:
ps = self.get_points(count), then the module-level regress(ps[0], ps[1]); the
integer particle counts are cast to float by np.array((nl, rl)). -/
noncomputable def ProcessAnalysis.regress (s : ProcessAnalysis) (count : ℕ) :
    ProcessAnalysis × Option (FloatR × FloatR) :=
  (s, Option.map (fun ps => regressModule (ps.1.map (fun n => (n : ℝ))) ps.2)
        (getPointsOf s.dumps count))

/-- Python built-in round to the nearest integer: round-half-to-even. -/
noncomputable def pyRound (x : ℝ) : ℤ :=
  if Int.fract x < 1/2 then ⌊x⌋
  else if 1/2 < Int.fract x then ⌊x⌋ + 1
  else if 2 ∣ ⌊x⌋ then ⌊x⌋ else ⌊x⌋ + 1

/-- Python format specifier .2f on a real value: round half to even at the
second decimal, then print with exactly two decimals. -/
noncomputable def fmt2 (x : ℝ) : String :=
  (if pyRound (x * 100) < 0 then "-" else "")
  ++ toString ((pyRound (x * 100)).natAbs / 100) ++ "."
  ++ (if (pyRound (x * 100)).natAbs % 100 < 10 then "0" else "")
  ++ toString ((pyRound (x * 100)).natAbs % 100)

/-- Formatting one FloatR value as Python's f-string does: finite values via
.2f, otherwise the texts inf, -inf, nan. -/
noncomputable def fmtF : FloatR → String
  | .fin x => fmt2 x
  | .pinf => "inf"
  | .ninf => "-inf"
  | .nan => "nan"

/-- One table row printed by the loop of Analyzer.py (line 36).  Python's
round() raises on an infinite or NaN error value, modelled as none; the slope
itself is formatted even when not finite. -/
noncomputable def rowOf (i : ℕ) (a e : FloatR) : Option String :=
  match e with
  | .fin er => some ("    " ++ toString i ++ " & " ++ fmtF a ++ "("
      ++ toString (pyRound (er * 100)) ++ ") & " ++ fmtF (fdiv a (.fin 2)) ++ "("
      ++ toString (pyRound (er * 50)) ++ ")\\\\")
  | _ => none

/-- The row format in the specification's own words, for finite a and err:
i, a to 2 decimals with round(err*100) in parentheses, then a/2 to 2 decimals
with round(err*50) in parentheses, ended by a double backslash. -/
noncomputable def rowSpec (i : ℕ) (a err : ℝ) : String :=
  "    " ++ toString i ++ " & " ++ fmt2 a ++ "(" ++ toString (pyRound (err * 100)) ++ ") & "
  ++ fmt2 (a / 2) ++ "(" ++ toString (pyRound (err * 50)) ++ ")\\\\"

/-- The report loop of Analyzer.py (lines 32-38): fixed preamble, one row per
window size 1..150 from a fresh Sampler+Regressor run, fixed postamble.  A
none entry models an iteration that raises. -/
noncomputable def reportTable (s : ProcessAnalysis) : List (Option String) :=
  [some "\\begin\x7blongtblr\x7d[]\x7b\x7d", some "    \\toprule"]
  ++ (List.range 150).map (fun j =>
        match (ProcessAnalysis.regress s (j + 1)).2 with
        | some p => rowOf (j + 1) p.1 p.2
        | none => none)
  ++ [some "    \\bottomrule", some "\\end\x7blongtblr\x7d"]

/-- Result of askopenfilenames: the empty string when the dialog is
cancelled (the value the script tests for), or the tuple of chosen paths. -/
inductive SelectionResult where
  | emptyResult
  | chosen (files : List String)

/-- The SCHEMA constant of Analyzer.py (lines 7-10). -/
def SCHEMA : SchemaType :=
  { id := some 0, position := some (1, 2, 3) }

/-- The main script of Analyzer.py (lines 12-38): the check files == ''
raises ValueError before any ProcessAnalysis is constructed; otherwise the
analysis is built from the selected files and the report table is printed.
The trailing diagnostic prints (lines 40-53) are further pure functions of
the same state and are not modelled. -/
noncomputable def mainRun (load : String → List Snapshot) (sel : SelectionResult) :
    Except String (List (Option String)) :=
  match sel with
  | .emptyResult => .error "Unexpected Value!"
  | .chosen files => .ok (reportTable (ProcessAnalysis.init load files SCHEMA))

/-- C7: a cancelled file selection (the empty-string result the script tests
for) raises ValueError('Unexpected Value!') before any ProcessAnalysis value
exists, while a successful selection proceeds to construct the analysis and
print the report. -/
theorem C7_empty_selection_fatal (load : String → List Snapshot) :
    mainRun load SelectionResult.emptyResult = .error "Unexpected Value!" ∧
    ∀ files, mainRun load (SelectionResult.chosen files)
      = .ok (reportTable (ProcessAnalysis.init load files SCHEMA)) :=
  ⟨rfl, fun _ => rfl⟩

/-- C8: the composed pipeline is deterministic: two runs over the same
selection, with loaders that parse every file identically, produce identical
printed output. -/
theorem C8_report_deterministic (load1 load2 : String → List Snapshot)
    (sel : SelectionResult) (h : ∀ f, load1 f = load2 f) :
    mainRun load1 sel = mainRun load2 sel := by
  have he : load1 = load2 := funext h
  rw [he]

/-- Witness for C8_report_deterministic: two syntactically different but
extensionally equal loaders over the same selection. -/
theorem C8_report_deterministic_witness :
    mainRun (fun _ => ([] : List Snapshot)) (SelectionResult.chosen ["a.lammpstrj"])
      = mainRun (fun _ => List.reverse ([] : List Snapshot)) (SelectionResult.chosen ["a.lammpstrj"]) :=
  C8_report_deterministic _ _ _ (fun _ => rfl)

/-- C9: get_points and regress have no side effect: the post-state is the
pre-state, and the returned value is a function of the loaded trajectories
and the window size only (the stored schema is never consulted). -/
theorem C9_methods_pure (s : ProcessAnalysis) (count : ℕ) :
    (ProcessAnalysis.get_points s count).1 = s ∧
    (ProcessAnalysis.regress s count).1 = s ∧
    ∀ s2 : ProcessAnalysis, s.dumps = s2.dumps →
      (ProcessAnalysis.get_points s count).2 = (ProcessAnalysis.get_points s2 count).2 ∧
      (ProcessAnalysis.regress s count).2 = (ProcessAnalysis.regress s2 count).2 := by
  refine ⟨rfl, rfl, ?_⟩
  intro s2 h
  unfold ProcessAnalysis.get_points ProcessAnalysis.regress
  rw [h]
  exact ⟨rfl, rfl⟩

/-- Witness for C9_methods_pure: two states sharing dumps but with different
schemas give identical results, and the state is returned unchanged. -/
theorem C9_methods_pure_witness :
    (ProcessAnalysis.get_points ⟨[], SCHEMA⟩ 5).1 = (⟨[], SCHEMA⟩ : ProcessAnalysis) ∧
    (ProcessAnalysis.get_points ⟨[], SCHEMA⟩ 5).2 = (ProcessAnalysis.get_points ⟨[], {}⟩ 5).2 ∧
    (ProcessAnalysis.regress ⟨[], SCHEMA⟩ 5).2 = (ProcessAnalysis.regress ⟨[], {}⟩ 5).2 := by
  have h := C9_methods_pure ⟨[], SCHEMA⟩ 5
  have h2 := h.2.2 ⟨[], {}⟩ rfl
  exact ⟨h.1, h2.1, h2.2⟩

lemma pyRound_eval_lt (x : ℝ) (n : ℤ) (h1 : (n:ℝ) ≤ x) (h2 : x < n + 1/2) : pyRound x = n := by
  have hf : ⌊x⌋ = n := Int.floor_eq_iff.mpr ⟨h1, by linarith⟩
  unfold pyRound
  simp only [Int.fract, hf]
  rw [if_pos (by linarith)]

lemma pyRound_eval_gt (x : ℝ) (n : ℤ) (h1 : (n:ℝ) + 1/2 < x) (h2 : x < n + 1) : pyRound x = n + 1 := by
  have hf : ⌊x⌋ = n := Int.floor_eq_iff.mpr ⟨by linarith, by linarith⟩
  unfold pyRound
  simp only [Int.fract, hf]
  rw [if_neg (by linarith), if_pos (by linarith)]

lemma pyRound_eval_tie_even (x : ℝ) (n : ℤ) (heven : 2 ∣ n) (h : x = (n:ℝ) + 1/2) : pyRound x = n := by
  have hf : ⌊x⌋ = n := Int.floor_eq_iff.mpr ⟨by rw [h]; linarith, by rw [h]; linarith⟩
  unfold pyRound
  simp only [Int.fract, hf]
  rw [if_neg (by rw [h]; linarith), if_neg (by rw [h]; linarith), if_pos heven]

lemma fdiv_fin_two (a : ℝ) : fdiv (.fin a) (.fin 2) = .fin (a / 2) := by
  simp only [fdiv]
  rw [if_neg (by norm_num : ¬ (2:ℝ) = 0)]

/-- The claim's formatting instance evaluated on the code: the a = 1.2345,
delta = 0.01 row comes out with error terms (1) and (0). -/
lemma row_at_claim_instance :
    rowOf 1 (.fin (1.2345 : ℝ)) (.fin (0.01 : ℝ)) = some "    1 & 1.23(1) & 0.62(0)\\\\" := by
  have h1 : pyRound ((1.2345:ℝ) * 100) = 123 := by
    rw [show (1.2345:ℝ) * 100 = 123.45 by norm_num]
    exact pyRound_eval_lt _ 123 (by norm_num) (by norm_num)
  have h2 : pyRound ((0.01:ℝ) * 100) = 1 := by
    rw [show (0.01:ℝ) * 100 = 1 by norm_num]
    exact pyRound_eval_lt _ 1 (by norm_num) (by norm_num)
  have h3 : pyRound ((1.2345:ℝ) / 2 * 100) = 62 := by
    rw [show (1.2345:ℝ) / 2 * 100 = 61.725 by norm_num]
    simpa using pyRound_eval_gt (61.725 : ℝ) 61 (by norm_num) (by norm_num)
  have h4 : pyRound ((0.01:ℝ) * 50) = 0 := by
    rw [show (0.01:ℝ) * 50 = ((0:ℤ):ℝ) + 1/2 by norm_num]
    exact pyRound_eval_tie_even _ 0 ⟨0, by norm_num⟩ rfl
  simp only [rowOf, fmtF, fdiv_fin_two, fmt2, h1, h2, h3, h4]
  simp only [Option.some.injEq]
  decide

/-- C4 (amended: by Python's round-half-to-even, round(delta*50) at
delta = 0.01 is round(0.5) = 0, so the second error term of the claimed row
is (0), not (1)): every finite-valued row follows the specified format
string, and at a = 1.2345, delta = 0.01 the emitted row is
"    1 & 1.23(1) & 0.62(0)\\". -/
theorem C4_report_row_format :
    (∀ (i : ℕ) (a e : ℝ), rowOf i (.fin a) (.fin e) = some (rowSpec i a e)) ∧
    (∀ (s : ProcessAnalysis) (i : ℕ), 1 ≤ i → i ≤ 150 →
      (reportTable s)[i + 1]?
        = some ((ProcessAnalysis.regress s i).2.bind (fun p => rowOf i p.1 p.2))) ∧
    (∀ s : ProcessAnalysis, (reportTable s).length = 154) ∧
    rowOf 1 (.fin (1.2345 : ℝ)) (.fin (0.01 : ℝ)) = some "    1 & 1.23(1) & 0.62(0)\\\\" := by
  refine ⟨?_, ?_, ?_, row_at_claim_instance⟩
  · intro i a e
    simp only [rowOf, rowSpec, fmtF, fdiv_fin_two]
  · intro s i h1 h150
    unfold reportTable
    rw [List.getElem?_append_left (by simp; omega)]
    rw [List.getElem?_append_right (by simp; omega)]
    rw [List.getElem?_map]
    have hidx : i + 1 - [some "\\begin\x7blongtblr\x7d[]\x7b\x7d", some "    \\toprule"].length
        = i - 1 := by simp
    rw [hidx, List.getElem?_range (by omega)]
    simp only [Option.map_some']
    rw [show i - 1 + 1 = i from by omega]
    cases (ProcessAnalysis.regress s i).2 <;> rfl
  · intro s
    unfold reportTable
    simp

/-- Counterexample to C4 as stated: at a = 1.2345, delta = 0.01 the code
prints the row "    1 & 1.23(1) & 0.62(0)\\" (round(0.5) = 0 under Python's
round-half-to-even), and the substring "0.62(1)" the claim requires does not
occur in that row. -/
theorem C4_report_row_counterexample :
    pyRound ((0.01:ℝ) * 50) = 0 ∧
    rowOf 1 (.fin (1.2345 : ℝ)) (.fin (0.01 : ℝ)) = some "    1 & 1.23(1) & 0.62(0)\\\\" ∧
    ¬ ("0.62(1)".toList <:+: "    1 & 1.23(1) & 0.62(0)\\\\".toList) := by
  refine ⟨?_, row_at_claim_instance, by decide⟩
  rw [show (0.01:ℝ) * 50 = ((0:ℤ):ℝ) + 1/2 by norm_num]
  exact pyRound_eval_tie_even _ 0 ⟨0, by norm_num⟩ rfl

/-- Witness for C4_report_row_format: the format conjunct at i = 3, a = 1,
e = 0, and the loop conjuncts at i = 1 on an empty-dumps state. -/
theorem C4_report_row_format_witness :
    rowOf 3 (.fin (1:ℝ)) (.fin (0:ℝ)) = some (rowSpec 3 1 0) ∧
    (reportTable ⟨[], SCHEMA⟩)[2]?
      = some ((ProcessAnalysis.regress ⟨[], SCHEMA⟩ 1).2.bind (fun p => rowOf 1 p.1 p.2)) ∧
    (reportTable ⟨[], SCHEMA⟩).length = 154 := by
  refine ⟨C4_report_row_format.1 3 1 0, ?_, C4_report_row_format.2.2.1 ⟨[], SCHEMA⟩⟩
  have h := C4_report_row_format.2.1 ⟨[], SCHEMA⟩ 1 (by norm_num) (by norm_num)
  simpa using h
